import Mathlib

/-!
Verification development for the blitz_logger ingestion pipeline.

The definitions below are a shallow embedding of the C++ sources:
`src/blitz_logger.hpp` (data model, the SPSC ring `ThreadLocalBuffer`,
the `log` fast path) and the thread-local-buffer translation unit
(consumer loop, formatter, file sink, lifecycle).  Machine integers
(`size_t`) are modelled as `Nat`; the ring index mask `& (BUFFER_SIZE-1)`
is the bitwise and on `Nat`, which coincides with `% BUFFER_SIZE`
because the capacity is a power of two.  Environment facilities
(`localtime`, `strftime`'s broken-down time, the filesystem, stream
handles) are modelled as explicit parameters or small state records.
-/

namespace BlitzLogger

/-! ## Log levels (enum class Level) -/

/-- Embeds `enum class Level { TRACE, DEBUG, INFO, WARNING, ERROR, FATAL, STEP }`. -/
inductive Level where
  | TRACE | DEBUG | INFO | WARNING | ERROR | FATAL | STEP
deriving DecidableEq, Repr, Inhabited

/-- Underlying enumerator value, as used by `static_cast<size_t>(msg.level)`
and by the builtin `<` on the enum. -/
def Level.toNat : Level → Nat
  | .TRACE => 0
  | .DEBUG => 1
  | .INFO => 2
  | .WARNING => 3
  | .ERROR => 4
  | .FATAL => 5
  | .STEP => 6

/-- The builtin comparison `level < config.minLevel` on the scoped enum. -/
def levelLt (a b : Level) : Bool := a.toNat < b.toNat

/-! ## Configuration (struct Config) -/

/-- Embeds `Logger::Config` with its in-class default initializers.
The source calls the second field `filePrefix`. -/
structure Config where
  logDir : String := "logs"
  filePref : String := "app"
  maxFileSize : Nat := 10 * 1024 * 1024
  maxFiles : Nat := 5
  minLevel : Level := .INFO
  consoleOutput : Bool := true
  fileOutput : Bool := true
  useColors : Bool := true
  showTimestamp : Bool := true
  showThreadId : Bool := true
  showSourceLocation : Bool := true
  showModuleName : Bool := true
  showFullPath : Bool := false
deriving Repr

/-- The default-constructed `Logger::Config`. -/
def cfg0 : Config := {}

/-! ## Records (struct Context, struct LogMessage) -/

/-- Embeds `Logger::Context`.  `threadId` stands for the opaque
`std::thread::id` already passed through `std::hash`, i.e. the stable
unsigned integer that the formatter prints. -/
structure Context where
  module : String
  function : String
  file : String
  line : Int
  threadId : Nat
deriving DecidableEq, Repr, Inhabited

/-- Embeds `Logger::LogMessage`.  The timestamp is the wall-clock
instant in milliseconds since the epoch (`system_clock::time_point`
truncated to the display resolution). -/
structure LogMessage where
  message : String
  level : Level
  context : Context
  timestamp : Nat
deriving DecidableEq, Repr, Inhabited

/-! ## The SPSC producer ring (struct ThreadLocalBuffer) -/

/-- Capacity of a producer ring: `static constexpr size_t BUFFER_SIZE = 1 << 16`. -/
def BUFFER_SIZE : Nat := 1 <<< 16

/-- Index arithmetic of the ring: `i & (BUFFER_SIZE - 1)`. -/
def wrap (i : Nat) : Nat := i &&& (BUFFER_SIZE - 1)

/-- Embeds `Logger::ThreadLocalBuffer`: a slot array indexed by `size_t`
(slots at indices `≥ BUFFER_SIZE` are never touched), the consumer-owned
`head`, the producer-owned `tail`, and the `isActive` flag cleared at
thread exit. -/
structure TLB (α : Type) where
  messages : Nat → α
  head : Nat
  tail : Nat
  isActive : Bool

/-- A freshly constructed ring: `head{0}`, `tail{0}`, `isActive{true}`. -/
def TLB.mk0 (α : Type) [Inhabited α] : TLB α :=
  { messages := fun _ => default, head := 0, tail := 0, isActive := true }

/-- One successful or failed attempt of `ThreadLocalBuffer::push`: on
`next_tail != head` the record is constructed in slot `tail` and `tail`
advances (`some`); on a full ring the source yields and retries without
touching any state, which we render as `none` (no drop, no overwrite). -/
def TLB.push {α : Type} (b : TLB α) (msg : α) : Option (TLB α) :=
  if wrap (b.tail + 1) ≠ b.head then
    some { b with
      messages := fun i => if i = b.tail then msg else b.messages i,
      tail := wrap (b.tail + 1) }
  else
    none

/-- Embeds `ThreadLocalBuffer::pop`: empty when `head == tail`, otherwise
moves the record out of slot `head` and advances `head`. -/
def TLB.pop {α : Type} (b : TLB α) : Option (α × TLB α) :=
  if b.head = b.tail then
    none
  else
    some (b.messages b.head, { b with head := wrap (b.head + 1) })

/-- Embeds `ThreadLocalBuffer::size`:
`(t >= h) ? (t - h) : (BUFFER_SIZE - (h - t))`. -/
def TLB.size {α : Type} (b : TLB α) : Nat :=
  if b.head ≤ b.tail then b.tail - b.head else BUFFER_SIZE - (b.head - b.tail)

/-- Embeds `ThreadLocalBuffer::isEmpty`. -/
def TLB.isEmpty {α : Type} (b : TLB α) : Bool := b.head = b.tail

/-- Embeds `ThreadLocalBuffer::isNearlyFull`, i.e.
`size() > BUFFER_SIZE * 0.9`.  The double nearest `65536 * 0.9` lies
strictly between `58982` and `58983`, and `size()` (at most `65535`)
converts to double exactly, so the floating comparison agrees with the
exact rational comparison `10 * size > 9 * BUFFER_SIZE` used here. -/
def TLB.isNearlyFull {α : Type} (b : TLB α) : Bool :=
  decide (10 * b.size > 9 * BUFFER_SIZE)

/-- Both cursors stay below the capacity; established by construction
and preserved by the masked increments. -/
def TLB.Inv {α : Type} (b : TLB α) : Prop :=
  b.head < BUFFER_SIZE ∧ b.tail < BUFFER_SIZE

/-- Abstraction function: the live records of the ring, oldest first,
read from the slots `head, head+1, …` modulo the capacity. -/
def TLB.contents {α : Type} (b : TLB α) : List α :=
  (List.range b.size).map (fun k => b.messages (wrap (b.head + k)))

/-- Ring states reachable from the freshly constructed ring through the
only operations that touch the cursors: a successful `push` and a
successful `pop`.  A push attempt against a full ring (`push = none`)
leaves the state unchanged in the source (the producer yields and
retries), so it contributes no edge. -/
inductive Reachable {α : Type} [Inhabited α] : TLB α → Prop where
  | init : Reachable (TLB.mk0 α)
  | push_ok {b b' : TLB α} {m : α} : Reachable b → b.push m = some b' → Reachable b'
  | pop_ok {b b' : TLB α} {x : α} : Reachable b → b.pop = some (x, b') → Reachable b'

/-! ## Final drain (Logger::drainAllBuffers) and the registry -/

/-- Fuel-indexed rendering of the `while (buffer->pop(msg))` loop of
`drainAllBuffers`.  The loop forwards the popped records to the sinks in
pop order (the 4096-record batching only chunks the same sequence), so
the accumulated list is the sequence handed to the sinks.  Any fuel of at
least `b.size` pops the ring dry, and the loop pops at most `size` times,
so `BUFFER_SIZE` fuel is always enough. -/
def drainLoop {α : Type} : Nat → TLB α → List α → List α × TLB α
  | 0, b, acc => (acc, b)
  | fuel + 1, b, acc =>
    match b.pop with
    | none => (acc, b)
    | some (x, b') => drainLoop fuel b' (acc ++ [x])

/-- Embeds the registry walk of `Logger::drainAllBuffers`: the snapshot
`bufferRegistry.getAllBuffers()` taken when the final drain starts is the
input list; each ring in it is popped until empty, in registration
order.  Returns the record sequence given to the sinks and the drained
rings. -/
def drainAllBuffers {α : Type} : List (TLB α) → List α × List (TLB α)
  | [] => ([], [])
  | b :: rest =>
    ((drainLoop BUFFER_SIZE b []).1 ++ (drainAllBuffers rest).1,
     (drainLoop BUFFER_SIZE b []).2 :: (drainAllBuffers rest).2)

/-- Embeds `BufferRegistry::unregisterBuffer`, invoked by the producer's
thread-exit cleanup in `getThreadLocalBuffer`: `buffers.remove(buffer)`
removes the ring from the registry list, so any snapshot taken afterwards
no longer contains it. -/
def unregisterBuffer {α : Type} (regs : List (TLB α)) (i : Nat) : List (TLB α) :=
  regs.eraseIdx i

/-- A concrete producer ring holding one submitted record, `7`. -/
def cexRing : TLB Nat := ((TLB.mk0 Nat).push 7).getD (TLB.mk0 Nat)

/-! ## Producer-side submission (Logger::log) -/

/-- Outcome of one `Logger::log` call.  The record construction
(`std::format` rendering plus the `Context` capture) sits in a try block
and may throw; that is rendered by the `Except` input.  On success the
record carries the call's `level` and timestamp and is pushed onto the
caller's ring (a full ring yields `none` on the attempt: the source
spins without dropping the submission).  The second component is what
the catch handler writes to `std::cerr`. -/
def logRun (cfg : Config) (level : Level) (ts : Nat)
    (build : Except String (String × Context)) (b : TLB LogMessage) :
    Option (TLB LogMessage) × List String :=
  if levelLt level cfg.minLevel then
    (some b, [])
  else
    match build with
    | .error e => (some b, ["Logging error: " ++ e])
    | .ok (s, ctx) =>
        (b.push { message := s, level := level, context := ctx, timestamp := ts }, [])

/-! ## Decimal rendering (digits produced by snprintf and strftime) -/

/-- Decimal digit character as produced by the C number formatting. -/
def digitChar (n : Nat) : Char :=
  if n % 10 = 0 then '0' else if n % 10 = 1 then '1' else if n % 10 = 2 then '2'
  else if n % 10 = 3 then '3' else if n % 10 = 4 then '4' else if n % 10 = 5 then '5'
  else if n % 10 = 6 then '6' else if n % 10 = 7 then '7' else if n % 10 = 8 then '8'
  else '9'

/-- Decimal digit extraction with explicit fuel; the value shrinks by a
factor of ten per step, so `n + 1` steps always suffice.  The fuel keeps
the function structurally recursive (and kernel-evaluable). -/
def decDigitsAux : Nat → Nat → List Char
  | 0, _ => []
  | fuel + 1, n =>
    if n < 10 then [digitChar n]
    else decDigitsAux fuel (n / 10) ++ [digitChar (n % 10)]

/-- Decimal digits of `n`, most significant first (the output of `%zu`
or `%d` on a non-negative value). -/
def decDigits (n : Nat) : List Char := decDigitsAux (n + 1) n

/-- Unsigned decimal rendering (`%zu`). -/
def natStr (n : Nat) : String := ⟨decDigits n⟩

/-- Signed decimal rendering (`%d`). -/
def intStr (i : Int) : String :=
  if i < 0 then "-" ++ natStr i.natAbs else natStr i.natAbs

/-- Zero-padded decimal rendering (`%0wd` and the zero-padded strftime
numeric conversions). -/
def padZero (w : Nat) (n : Nat) : String :=
  ⟨List.replicate (w - (decDigits n).length) '0' ++ decDigits n⟩

/-! ## Formatter (Logger::formatLogMessage, Logger::processMessageBatch) -/

/-- Broken-down local wall-clock time as returned by `std::localtime`;
the civil-calendar conversion and the timezone live in the C runtime
outside the embedded sources, so the consumer receives it as an
environment input. -/
structure Tm where
  year : Nat
  month : Nat
  day : Nat
  hour : Nat
  minute : Nat
  sec : Nat
deriving DecidableEq, Repr

/-- The timestamp field: `strftime("[%Y-%m-%d %H:%M:%S.")` followed by
`snprintf("%03d]")` of the millisecond part (the code emits the
trailing space separately; this is the bracketed field). -/
def timestampField (tm : Tm) (tsMs : Nat) : String :=
  "[" ++ padZero 4 tm.year ++ "-" ++ padZero 2 tm.month ++ "-" ++ padZero 2 tm.day
      ++ " " ++ padZero 2 tm.hour ++ ":" ++ padZero 2 tm.minute ++ ":"
      ++ padZero 2 tm.sec ++ "." ++ padZero 3 (tsMs % 1000) ++ "]"

/-- Embeds `LEVEL_STRINGS`; index 3 (WARNING) prints as "WARN". -/
def LEVEL_STRINGS : List String :=
  ["TRACE", "DEBUG", "INFO", "WARN", "ERROR", "FATAL", "STEP"]

/-- The level token `LEVEL_STRINGS[static_cast<size_t>(level)]`. -/
def levelString (lvl : Level) : String := LEVEL_STRINGS.getD lvl.toNat ""

/-- The displayed path when `showFullPath` is off:
`file.find_last_of("/\\")` then `substr(pos + 1)`, i.e. the part after
the last path separator (the whole string when there is none). -/
def basename (s : String) : String :=
  ⟨s.data.foldl (fun acc c => if c = '/' ∨ c = '\\' then [] else acc ++ [c]) []⟩

/-- Embeds the `COLORS` table of ANSI SGR escape sequences. -/
def COLORS : List String :=
  ["\x1b[0m", "\x1b[30m", "\x1b[31m", "\x1b[32m", "\x1b[33m",
   "\x1b[34m", "\x1b[35m", "\x1b[36m", "\x1b[37m", "\x1b[1;31m"]

def COLOR_RESET : Nat := 0
def COLOR_TRACE : Nat := 7
def COLOR_DEBUG : Nat := 6
def COLOR_INFO : Nat := 3
def COLOR_WARNING : Nat := 4
def COLOR_ERROR : Nat := 2
def COLOR_FATAL : Nat := 9
def COLOR_STEP : Nat := 5

/-- Embeds `Logger::getLevelColor`. -/
def getLevelColor (level : Level) : String :=
  match level with
  | .TRACE => COLORS.getD COLOR_TRACE ""
  | .DEBUG => COLORS.getD COLOR_DEBUG ""
  | .INFO => COLORS.getD COLOR_INFO ""
  | .WARNING => COLORS.getD COLOR_WARNING ""
  | .ERROR => COLORS.getD COLOR_ERROR ""
  | .FATAL => COLORS.getD COLOR_FATAL ""
  | .STEP => COLORS.getD COLOR_STEP ""

/-- Embeds `Logger::formatLogMessage`: appends the formatted record to
the caller's byte buffer, field by field, each field followed by one
space.  `localtime` is the environment's timezone conversion feeding the
timestamp field. -/
def formatLogMessage (cfg : Config) (localtime : Nat → Tm) (msg : LogMessage)
    (buffer : String) : String :=
  let buffer := if cfg.showTimestamp
    then buffer ++ timestampField (localtime msg.timestamp) msg.timestamp ++ " "
    else buffer
  let buffer := buffer ++ "[" ++ levelString msg.level ++ "]" ++ " "
  let buffer := if cfg.showThreadId
    then buffer ++ "[T-" ++ natStr msg.context.threadId ++ "]" ++ " "
    else buffer
  let buffer := if cfg.showModuleName ∧ msg.context.module ≠ ""
    then buffer ++ "[" ++ msg.context.module ++ "]" ++ " "
    else buffer
  let buffer := if cfg.showSourceLocation
    then buffer ++ "["
      ++ (if cfg.showFullPath then msg.context.file else basename msg.context.file)
      ++ ":" ++ intStr msg.context.line ++ "]" ++ " "
    else buffer
  buffer ++ msg.message

/-- Embeds the buffer-building loop of `Logger::processMessageBatch`:
for each record of the batch, the plain formatted line plus newline goes
into the file buffer (when file output is on), and the line — wrapped in
the level color and the reset escape when `useColors` — plus newline
goes into the console buffer (when console output is on).  The source
then writes the file buffer to the log file (followed by the rotation
check) and the console buffer to stdout. -/
def processMessageBatch (cfg : Config) (localtime : Nat → Tm) :
    List LogMessage → String → String → String × String
  | [], fileBuffer, consoleBuffer => (fileBuffer, consoleBuffer)
  | msg :: rest, fileBuffer, consoleBuffer =>
    processMessageBatch cfg localtime rest
      (if cfg.fileOutput
        then formatLogMessage cfg localtime msg fileBuffer ++ "\n"
        else fileBuffer)
      (if cfg.consoleOutput
        then (if cfg.useColors
          then formatLogMessage cfg localtime msg
              (consoleBuffer ++ getLevelColor msg.level)
            ++ COLORS.getD COLOR_RESET "" ++ "\n"
          else formatLogMessage cfg localtime msg consoleBuffer ++ "\n")
        else consoleBuffer)

/-- Specification-side layout of §4.5, for the refinement statement of
the formatter claim: the listed fields in order, separated by single
spaces, then the record's message. -/
def joinSpaced : List String → String → String
  | [], m => m
  | f :: fs, m => f ++ " " ++ joinSpaced fs m

/-- Specification-side field list of §4.5 for a record under a
configuration: optional timestamp, the level token always, optional
thread id, optional non-empty module, optional source location with the
basename unless `showFullPath`. -/
def specFields (cfg : Config) (localtime : Nat → Tm) (msg : LogMessage) :
    List String :=
  (if cfg.showTimestamp
    then [timestampField (localtime msg.timestamp) msg.timestamp] else [])
  ++ ["[" ++ levelString msg.level ++ "]"]
  ++ (if cfg.showThreadId then ["[T-" ++ natStr msg.context.threadId ++ "]"] else [])
  ++ (if cfg.showModuleName ∧ msg.context.module ≠ ""
    then ["[" ++ msg.context.module ++ "]"] else [])
  ++ (if cfg.showSourceLocation
    then ["[" ++ (if cfg.showFullPath then msg.context.file
        else basename msg.context.file)
      ++ ":" ++ intStr msg.context.line ++ "]"]
    else [])

/-- The bytes one record contributes to the file buffer. -/
def fileChunk (cfg : Config) (localtime : Nat → Tm) (msg : LogMessage) : String :=
  if cfg.fileOutput then formatLogMessage cfg localtime msg "" ++ "\n" else ""

/-- The bytes one record contributes to the console buffer. -/
def consoleChunk (cfg : Config) (localtime : Nat → Tm) (msg : LogMessage) : String :=
  if cfg.consoleOutput then
    (if cfg.useColors
      then getLevelColor msg.level ++ formatLogMessage cfg localtime msg ""
        ++ COLORS.getD COLOR_RESET "" ++ "\n"
      else formatLogMessage cfg localtime msg "" ++ "\n")
  else ""

/-- Concatenation of a list of byte strings. -/
def strJoin : List String → String
  | [] => ""
  | s :: rest => s ++ strJoin rest

/-- The ANSI escape byte `0x1b` that introduces every color sequence. -/
def escChar : Char := Char.ofNat 27

/-- A byte string free of the ANSI escape byte. -/
def noEsc (s : String) : Prop := escChar ∉ s.data

instance (s : String) : Decidable (noEsc s) :=
  inferInstanceAs (Decidable (escChar ∉ s.data))

/-- A concrete record with escape-free fields, for witnesses. -/
def msg0 : LogMessage :=
  { message := "hello", level := .INFO,
    context := { module := "Net", function := "f", file := "/a/b/c.x",
                 line := 42, threadId := 91237 },
    timestamp := 1735787045678 }

/-- A concrete localtime environment, for witnesses. -/
def lt0 : Nat → Tm :=
  fun _ => { year := 2025, month := 1, day := 2, hour := 3, minute := 4, sec := 5 }

/-! ## File sink: rotation and retention
(Logger::rotateLogFileIfNeeded, Logger::cleanOldLogs) -/

/-- A directory entry of `log_dir`: file name and modification time. -/
structure DirEntry where
  name : String
  mtime : Nat
deriving DecidableEq, Repr

/-- State of the file sink: the files in `log_dir`, whether the active
log stream is open, and the running byte counter `currentFileSize`. -/
structure FileSink where
  dir : List DirEntry
  fileOpen : Bool
  currentFileSize : Nat
deriving DecidableEq, Repr

/-- The active file name `<filePrefix>.log` (names are relative to
`log_dir`). -/
def activeName (cfg : Config) : String := cfg.filePref ++ ".log"

/-- The rotated name `<filePrefix>_<YYYYmmdd_HHMMSS>.log`; `tsName` is
the `strftime("%Y%m%d_%H%M%S")` rendering of the rotation instant. -/
def rotatedName (cfg : Config) (tsName : String) : String :=
  cfg.filePref ++ "_" ++ tsName ++ ".log"

/-- The retention filter of `cleanOldLogs`: extension `.log` and stem
starting with the prefix (for a name with the `.log` extension the stem
is the name without its last four bytes). -/
def isLogFile (cfg : Config) (name : String) : Bool :=
  List.isSuffixOf ".log".data name.data &&
    List.isPrefixOf cfg.filePref.data (name.dropRight 4).data

/-- Number of files in a directory subject to retention. -/
def matchCount (cfg : Config) (dir : List DirEntry) : Nat :=
  (dir.filter (fun e => isLogFile cfg e.name)).length

/-- Insertion into a list sorted by mtime descending (models the
comparator `last_write_time(a) > last_write_time(b)`; `std::sort` breaks
ties arbitrarily and the retention count does not depend on them). -/
def insertByMtime (e : DirEntry) : List DirEntry → List DirEntry
  | [] => [e]
  | f :: fs => if f.mtime ≤ e.mtime then e :: f :: fs else f :: insertByMtime e fs

/-- Sort by modification time, newest first. -/
def sortByMtime : List DirEntry → List DirEntry
  | [] => []
  | e :: es => insertByMtime e (sortByMtime es)

/-- Embeds `Logger::cleanOldLogs`: collect the matching files, sort them
newest first, and delete entries from the back (the oldest) while more
than `maxFiles` remain. -/
def cleanOldLogs (cfg : Config) (dir : List DirEntry) : List DirEntry :=
  dir.filter (fun e =>
    decide (e ∉ (sortByMtime (dir.filter (fun x => isLogFile cfg x.name))).drop
      cfg.maxFiles))

/-- The directory after the rename-and-reopen steps of a triggered
rotation, before the retention cleanup: the active file (when present)
is renamed to the timestamped name, then a fresh active file is created
by the append-mode open, carrying the rotation instant `now` as its
modification time. -/
def renamedDir (cfg : Config) (dir : List DirEntry) (tsName : String)
    (now : Nat) : List DirEntry :=
  (if dir.any (fun e => decide (e.name = activeName cfg)) then
      dir.map (fun e => if e.name = activeName cfg
        then { e with name := rotatedName cfg tsName } else e)
    else dir)
  ++ [{ name := activeName cfg, mtime := now }]

/-- Embeds `Logger::rotateLogFileIfNeeded`: a no-op unless file output
is on and `currentFileSize ≥ maxFileSize`; otherwise close, rename,
reopen a fresh active file, reset the byte counter, and clean old
logs. -/
def rotateLogFileIfNeeded (cfg : Config) (st : FileSink) (tsName : String)
    (now : Nat) : FileSink :=
  if ¬ cfg.fileOutput ∨ st.currentFileSize < cfg.maxFileSize then st
  else
    { dir := cleanOldLogs cfg (renamedDir cfg st.dir tsName now),
      fileOpen := true,
      currentFileSize := 0 }

/-- A concrete sink state due for rotation with a single matching file. -/
def cexSink : FileSink :=
  { dir := [{ name := "app.log", mtime := 0 }], fileOpen := true,
    currentFileSize := 10 }

/-- A concrete configuration with a tiny rotation threshold. -/
def cexCfg : Config := { maxFileSize := 10, maxFiles := 5 }

/-! ## Reconfiguration (Logger::configure) -/

/-- The logger state view that `configure` manipulates. -/
structure LoggerState where
  config : Config
  fileOpen : Bool
  currentFileSize : Nat
deriving Repr

/-- Environment of one `configure` call: whether opening
`log_dir/file_prefix.log` succeeds, and the size of the (possibly
pre-existing) file when it does. -/
structure OpenEnv where
  canOpen : Bool
  existingSize : Nat
deriving DecidableEq, Repr

/-- Embeds `Logger::configure` (under `configMutex`): first the open
stream is closed, then the new configuration is installed, and only then
is the log file reopened when file output is enabled; a failed open
throws — rendered as `some message` — after those two state changes have
already happened. -/
def configure (st : LoggerState) (cfg : Config) (env : OpenEnv) :
    LoggerState × Option String :=
  if cfg.fileOutput then
    (if env.canOpen then
      ({ config := cfg, fileOpen := true,
         currentFileSize := env.existingSize }, none)
    else
      ({ config := cfg, fileOpen := false,
         currentFileSize := st.currentFileSize },
       some ("Failed to open log file: " ++ cfg.logDir ++ "/"
         ++ cfg.filePref ++ ".log")))
  else
    ({ config := cfg, fileOpen := false,
       currentFileSize := st.currentFileSize }, none)

/-- A concrete logger state with an open file, for witnesses. -/
def st0 : LoggerState :=
  { config := cfg0, fileOpen := true, currentFileSize := 5 }

/-!
# Theorems

Everything below this point is proof: first the ring lemmas, then the
claim theorems with their witnesses and counterexamples.
-/

theorem BUFFER_SIZE_eq : BUFFER_SIZE = 65536 := rfl

/-- The mask is a power-of-two mask, so it is reduction mod the capacity. -/
theorem wrap_eq_mod (i : Nat) : wrap i = i % BUFFER_SIZE := by
  have h := Nat.and_pow_two_sub_one_eq_mod i 16
  simpa [wrap, BUFFER_SIZE] using h

namespace TLB

theorem size_le {α : Type} (b : TLB α) (h : b.Inv) :
    b.size ≤ BUFFER_SIZE - 1 := by
  rcases h with ⟨h1, h2⟩
  unfold size
  split <;> omega

theorem head_add_size {α : Type} (b : TLB α) (h : b.Inv) :
    wrap (b.head + b.size) = b.tail := by
  rcases h with ⟨h1, h2⟩
  rw [wrap_eq_mod]
  unfold size
  split
  · have : b.head + (b.tail - b.head) = b.tail := by omega
    rw [this, Nat.mod_eq_of_lt h2]
  · have hsum : b.head + (BUFFER_SIZE - (b.head - b.tail)) = b.tail + BUFFER_SIZE := by
      omega
    rw [hsum, Nat.add_mod_right, Nat.mod_eq_of_lt h2]

theorem wrap_window_inj {k₁ k₂ : Nat} (h : Nat) (hk₁ : k₁ < BUFFER_SIZE)
    (hk₂ : k₂ < BUFFER_SIZE) (heq : wrap (h + k₁) = wrap (h + k₂)) : k₁ = k₂ := by
  rw [wrap_eq_mod, wrap_eq_mod] at heq
  have hmod : k₁ ≡ k₂ [MOD BUFFER_SIZE] := Nat.ModEq.add_left_cancel' h heq
  have : k₁ % BUFFER_SIZE = k₂ % BUFFER_SIZE := hmod
  rwa [Nat.mod_eq_of_lt hk₁, Nat.mod_eq_of_lt hk₂] at this

theorem buffer_size_pos : 0 < BUFFER_SIZE := by decide

theorem wrap_lt (i : Nat) : wrap i < BUFFER_SIZE := by
  rw [wrap_eq_mod]; exact Nat.mod_lt _ buffer_size_pos

theorem length_contents {α : Type} (b : TLB α) : b.contents.length = b.size := by
  simp [TLB.contents]

theorem size_eq_zero_iff {α : Type} (b : TLB α) (h : b.Inv) :
    b.size = 0 ↔ b.head = b.tail := by
  rcases h with ⟨h1, h2⟩
  unfold size
  split <;> omega

theorem contents_eq_nil_iff {α : Type} (b : TLB α) (h : b.Inv) :
    b.contents = [] ↔ b.head = b.tail := by
  rw [← size_eq_zero_iff b h, ← length_contents, List.length_eq_zero]

/-- A successful `push` appends the record at the back of the abstract queue. -/
theorem push_some {α : Type} (b : TLB α) (m : α) (b' : TLB α) (hI : b.Inv)
    (h : b.push m = some b') :
    b'.Inv ∧ b'.head = b.head ∧ b'.size = b.size + 1 ∧
      b'.contents = b.contents ++ [m] := by
  rcases hI with ⟨h1, h2⟩
  unfold TLB.push at h
  split at h
  case isFalse => exact absurd h (by simp)
  case isTrue hg =>
    simp only [Option.some.injEq] at h
    subst h
    have hsz : TLB.size { b with
        messages := fun i => if i = b.tail then m else b.messages i,
        tail := wrap (b.tail + 1) } = b.size + 1 := by
      by_cases hc : b.tail + 1 = BUFFER_SIZE
      · have ht' : wrap (b.tail + 1) = 0 := by
          rw [wrap_eq_mod, hc, Nat.mod_self]
        rw [ht'] at hg ⊢
        unfold TLB.size
        simp only
        split <;> split <;> omega
      · have ht' : wrap (b.tail + 1) = b.tail + 1 := by
          rw [wrap_eq_mod, Nat.mod_eq_of_lt (by omega)]
        rw [ht'] at hg ⊢
        unfold TLB.size
        simp only
        split <;> split <;> omega
    refine ⟨⟨h1, wrap_lt _⟩, rfl, hsz, ?_⟩
    have hsize_lt : b.size < BUFFER_SIZE := by
      have := size_le b ⟨h1, h2⟩; omega
    unfold TLB.contents
    simp only [hsz]
    rw [List.range_succ, List.map_append]
    congr 1
    · apply List.map_congr_left
      intro k hk
      have hklt : k < b.size := List.mem_range.mp hk
      have hne : wrap (b.head + k) ≠ b.tail := by
        intro hEq
        have htail : wrap (b.head + b.size) = b.tail := head_add_size b ⟨h1, h2⟩
        have := wrap_window_inj b.head (by omega) hsize_lt (hEq.trans htail.symm)
        omega
      simp [hne]
    · have htail : wrap (b.head + b.size) = b.tail := head_add_size b ⟨h1, h2⟩
      simp [htail]

/-- The ring is observed empty by `pop` exactly when the abstract queue
is empty. -/
theorem pop_none_iff {α : Type} (b : TLB α) (hI : b.Inv) :
    b.pop = none ↔ b.contents = [] := by
  rw [contents_eq_nil_iff b hI]
  unfold TLB.pop
  split <;> simp_all

/-- A successful `pop` removes the record at the front of the abstract
queue. -/
theorem pop_some {α : Type} (b : TLB α) (x : α) (b' : TLB α) (hI : b.Inv)
    (h : b.pop = some (x, b')) :
    b'.Inv ∧ b'.size + 1 = b.size ∧ b.contents = x :: b'.contents := by
  rcases hI with ⟨h1, h2⟩
  unfold TLB.pop at h
  split at h
  case isTrue => exact absurd h (by simp)
  case isFalse hne =>
    simp only [Option.some.injEq, Prod.mk.injEq] at h
    obtain ⟨hx, hb⟩ := h
    subst hx; subst hb
    have hsz : (TLB.size { b with head := wrap (b.head + 1) }) + 1 = b.size := by
      by_cases hc : b.head + 1 = BUFFER_SIZE
      · have hh' : wrap (b.head + 1) = 0 := by
          rw [wrap_eq_mod, hc, Nat.mod_self]
        rw [hh']
        unfold TLB.size
        simp only
        split <;> split <;> omega
      · have hh' : wrap (b.head + 1) = b.head + 1 := by
          rw [wrap_eq_mod, Nat.mod_eq_of_lt (by omega)]
        rw [hh']
        unfold TLB.size
        simp only
        split <;> split <;> omega
    refine ⟨⟨wrap_lt _, h2⟩, hsz, ?_⟩
    unfold TLB.contents
    simp only
    rw [← hsz, List.range_succ_eq_map]
    simp only [List.map_cons, List.map_map]
    congr 1
    · have : wrap (b.head + 0) = b.head := by
        rw [wrap_eq_mod, Nat.add_zero, Nat.mod_eq_of_lt h1]
      rw [this]
    · apply List.map_congr_left
      intro k _
      simp only [Function.comp_apply]
      congr 1
      simp only [wrap_eq_mod]
      rw [Nat.mod_add_mod]
      congr 1
      omega

end TLB

theorem Reachable.inv {α : Type} [Inhabited α] {b : TLB α}
    (h : Reachable b) : b.Inv := by
  induction h with
  | init => exact ⟨TLB.buffer_size_pos, TLB.buffer_size_pos⟩
  | push_ok _ hp ih => exact (TLB.push_some _ _ _ ih hp).1
  | pop_ok _ hp ih => exact (TLB.pop_some _ _ _ ih hp).1

theorem drainLoop_spec {α : Type} :
    ∀ (fuel : Nat) (b : TLB α) (acc : List α), b.Inv → b.size ≤ fuel →
      (drainLoop fuel b acc).1 = acc ++ b.contents ∧
      (drainLoop fuel b acc).2.contents = [] := by
  intro fuel
  induction fuel with
  | zero =>
    intro b acc hI hsz
    have hhd : b.head = b.tail := (TLB.size_eq_zero_iff b hI).mp (by omega)
    have hnil : b.contents = [] := (TLB.contents_eq_nil_iff b hI).mpr hhd
    simp [drainLoop, hnil]
  | succ n ih =>
    intro b acc hI hsz
    cases hpop : b.pop with
    | none =>
      have hnil : b.contents = [] := (TLB.pop_none_iff b hI).mp hpop
      simp [drainLoop, hpop, hnil]
    | some p =>
      obtain ⟨x, b'⟩ := p
      obtain ⟨hI', hsz', hc⟩ := TLB.pop_some b x b' hI hpop
      have := ih b' (acc ++ [x]) hI' (by omega)
      simp only [drainLoop, hpop]
      refine ⟨?_, this.2⟩
      rw [this.1, hc]
      simp

/-! ## Claim theorems: ring buffer -/

/-- C2: any sequence of push and pop operations on a producer ring
behaves as a bounded FIFO queue.  Under the abstraction `contents`
(live records, oldest first), a successful `push` appends at the back,
`pop` reports empty exactly on the empty queue, and a successful `pop`
returns the front record and leaves the rest, so records of one producer
leave the ring in exactly their submission order. -/
theorem claim_C2_ring_fifo {α : Type} (b : TLB α) (m : α) (hI : b.Inv) :
    (∀ b', b.push m = some b' → b'.contents = b.contents ++ [m] ∧ b'.Inv)
  ∧ (b.pop = none ↔ b.contents = [])
  ∧ (∀ x b', b.pop = some (x, b') → b.contents = x :: b'.contents ∧ b'.Inv) := by
  refine ⟨?_, TLB.pop_none_iff b hI, ?_⟩
  · intro b' hp
    obtain ⟨hI', _, _, hc⟩ := TLB.push_some b m b' hI hp
    exact ⟨hc, hI'⟩
  · intro x b' hp
    obtain ⟨hI', _, hc⟩ := TLB.pop_some b x b' hI hp
    exact ⟨hc, hI'⟩

theorem claim_C2_ring_fifo_witness :
    (TLB.mk0 Nat).Inv ∧ ((TLB.mk0 Nat).pop = none ↔ (TLB.mk0 Nat).contents = []) := by
  have hI : (TLB.mk0 Nat).Inv := ⟨TLB.buffer_size_pos, TLB.buffer_size_pos⟩
  exact ⟨hI, (claim_C2_ring_fifo (TLB.mk0 Nat) 7 hI).2.1⟩

/-- C3: in every reachable ring state at most `capacity − 1` records are
live (one slot is reserved to distinguish empty from full), and on a full
ring — `(tail+1) mod capacity = head` — the push attempt does not modify
the ring (the producer retries; nothing is dropped or overwritten). -/
theorem claim_C3_ring_bound {α : Type} [Inhabited α] (b : TLB α)
    (h : Reachable b) :
    b.size ≤ BUFFER_SIZE - 1 ∧ b.contents.length ≤ BUFFER_SIZE - 1 ∧
      (∀ m : α, wrap (b.tail + 1) = b.head → b.push m = none) := by
  have hI := h.inv
  refine ⟨TLB.size_le b hI, ?_, ?_⟩
  · rw [TLB.length_contents]; exact TLB.size_le b hI
  · intro m hfull
    unfold TLB.push
    simp [hfull]

theorem claim_C3_ring_bound_witness :
    (TLB.mk0 Nat).size ≤ BUFFER_SIZE - 1 :=
  (claim_C3_ring_bound (TLB.mk0 Nat) Reachable.init).1

/-- C8: `isNearlyFull` holds exactly when the occupancy (the number of
live records, as computed by `size` from head and tail) is at least 90%
of the capacity, which for capacity 65536 is exactly `size ≥ 58983`. -/
theorem claim_C8_nearly_full {α : Type} (b : TLB α) :
    b.isNearlyFull = true ↔ (58983 ≤ b.size ∧ 9 * BUFFER_SIZE ≤ 10 * b.size) := by
  simp only [TLB.isNearlyFull, BUFFER_SIZE_eq, decide_eq_true_eq]
  omega

/-! ## Claim theorems: shutdown drain -/

/-- C1 counterexample: a record submitted before shutdown sits in a ring
whose owning thread exits between the stop signal and the final round;
the thread-exit cleanup unregisters the ring, the final drain's fresh
snapshot `getAllBuffers()` therefore does not contain it, the drain
writes nothing, and the record stays behind in the abandoned ring —
contradicting the claim that every submitted record reaches the sinks
and none is left in memory. -/
theorem claim_C1_cex :
    cexRing.contents = [7] ∧
    unregisterBuffer [cexRing] 0 = [] ∧
    (drainAllBuffers (unregisterBuffer [cexRing] 0)).1 = [] ∧
    (drainAllBuffers (unregisterBuffer [cexRing] 0)).2 = [] := by
  refine ⟨?_, rfl, rfl, rfl⟩
  decide

/-- C1 amended: the final drain empties exactly the rings present in the
registry snapshot it takes: their records reach the sinks in ring order
and those rings are left empty.  A ring unregistered between the stop
signal and the final round is absent from that snapshot and is not
drained (its pending records are lost), because `drainAllBuffers` takes
its own fresh snapshot after the stop signal. -/
theorem claim_C1_final_drain {α : Type} (regs : List (TLB α))
    (h : ∀ b ∈ regs, b.Inv) :
    (drainAllBuffers regs).1 = (regs.map TLB.contents).flatten ∧
    (∀ b' ∈ (drainAllBuffers regs).2, b'.contents = []) := by
  induction regs with
  | nil => simp [drainAllBuffers]
  | cons b rest ih =>
    have hb : b.Inv := h b (by simp)
    have hrest : ∀ x ∈ rest, x.Inv := fun x hx => h x (by simp [hx])
    have hloop := drainLoop_spec BUFFER_SIZE b [] hb
      (le_trans (TLB.size_le b hb) (by omega))
    obtain ⟨ih1, ih2⟩ := ih hrest
    refine ⟨?_, ?_⟩
    · simp only [drainAllBuffers, List.map_cons, List.flatten]
      rw [hloop.1, ih1]
      simp
    · intro b' hb'
      simp only [drainAllBuffers, List.mem_cons] at hb'
      rcases hb' with hb' | hb'
      · rw [hb']; exact hloop.2
      · exact ih2 b' hb'

theorem claim_C1_final_drain_witness :
    (∀ b ∈ [cexRing], b.Inv) ∧
      (drainAllBuffers [cexRing]).1 = ([cexRing].map TLB.contents).flatten := by
  have h : ∀ b ∈ [cexRing], b.Inv := by
    intro b hb
    simp only [List.mem_singleton] at hb
    subst hb
    constructor <;> decide
  exact ⟨h, (claim_C1_final_drain [cexRing] h).1⟩

/-! ## Claim theorems: producer-side filtering and error handling -/

/-- C4: a `log` call with `level < min_level` returns immediately — the
ring is untouched, nothing is written to the error stream, and no record
is constructed or enqueued; consequently every record that is ever in a
ring (hence ever handed to a sink) has level at least `min_level`. -/
theorem claim_C4_severity_filter (cfg : Config) (level : Level) (ts : Nat)
    (build : Except String (String × Context)) (b : TLB LogMessage)
    (hI : b.Inv) :
    (levelLt level cfg.minLevel = true →
        logRun cfg level ts build b = (some b, []))
  ∧ (∀ b', (logRun cfg level ts build b).1 = some b' →
        ∀ m ∈ b'.contents,
          m ∈ b.contents ∨ levelLt m.level cfg.minLevel = false) := by
  constructor
  · intro hlt
    unfold logRun
    rw [hlt]
    simp
  · intro b' hres m hm
    unfold logRun at hres
    by_cases hlt : levelLt level cfg.minLevel
    · rw [if_pos hlt] at hres
      simp only [Option.some.injEq] at hres
      subst hres
      exact Or.inl hm
    · rw [if_neg hlt] at hres
      cases build with
      | error e =>
        simp only [Option.some.injEq] at hres
        subst hres
        exact Or.inl hm
      | ok p =>
        obtain ⟨s, ctx⟩ := p
        simp only at hres
        obtain ⟨_, _, _, hc⟩ := TLB.push_some b _ b' hI hres
        rw [hc] at hm
        rcases List.mem_append.mp hm with hm | hm
        · exact Or.inl hm
        · right
          simp only [List.mem_singleton] at hm
          subst hm
          exact Bool.of_not_eq_true hlt

theorem claim_C4_severity_filter_witness :
    levelLt .DEBUG cfg0.minLevel = true ∧
      logRun cfg0 .DEBUG 0 (.ok ("x", default)) (TLB.mk0 LogMessage) =
        (some (TLB.mk0 LogMessage), []) := by
  have hI : (TLB.mk0 LogMessage).Inv :=
    ⟨TLB.buffer_size_pos, TLB.buffer_size_pos⟩
  exact ⟨by decide,
    (claim_C4_severity_filter cfg0 .DEBUG 0 (.ok ("x", default))
      (TLB.mk0 LogMessage) hI).1 (by decide)⟩

/-- C10: when the record construction throws past the severity filter,
`log` catches the exception, writes the diagnostic to the process error
stream, and returns normally with the ring unchanged — the submission is
silently lost on the producer side. -/
theorem claim_C10_log_catch (cfg : Config) (level : Level) (ts : Nat)
    (e : String) (b : TLB LogMessage)
    (hlvl : levelLt level cfg.minLevel = false) :
    logRun cfg level ts (.error e) b = (some b, ["Logging error: " ++ e]) := by
  unfold logRun
  rw [hlvl]
  simp

theorem claim_C10_log_catch_witness :
    levelLt .ERROR cfg0.minLevel = false ∧
      logRun cfg0 .ERROR 0 (.error "bad") (TLB.mk0 LogMessage) =
        (some (TLB.mk0 LogMessage), ["Logging error: bad"]) :=
  ⟨by decide,
    claim_C10_log_catch cfg0 .ERROR 0 "bad" (TLB.mk0 LogMessage) (by decide)⟩

/-! ## Formatter lemmas -/

/-- The code's field-by-field buffer appends produce exactly the
space-separated layout of §4.5. -/
theorem formatLogMessage_spec (cfg : Config) (localtime : Nat → Tm)
    (msg : LogMessage) (buffer : String) :
    formatLogMessage cfg localtime msg buffer
      = buffer ++ joinSpaced (specFields cfg localtime msg) msg.message := by
  simp only [formatLogMessage, specFields]
  split_ifs <;>
    simp only [joinSpaced, List.cons_append, List.nil_append, List.append_nil,
      List.singleton_append, String.append_assoc, String.append_empty,
      String.empty_append]

/-- The formatter only appends: the incoming buffer is a prefix. -/
theorem formatLogMessage_append (cfg : Config) (localtime : Nat → Tm)
    (msg : LogMessage) (buffer : String) :
    formatLogMessage cfg localtime msg buffer
      = buffer ++ formatLogMessage cfg localtime msg "" := by
  rw [formatLogMessage_spec, formatLogMessage_spec]
  simp

/-- The batch loop appends, per record and in batch order, one file
chunk and one console chunk to the respective buffers. -/
theorem processMessageBatch_spec (cfg : Config) (localtime : Nat → Tm) :
    ∀ (batch : List LogMessage) (fb cb : String),
      processMessageBatch cfg localtime batch fb cb
        = (fb ++ strJoin (batch.map (fileChunk cfg localtime)),
           cb ++ strJoin (batch.map (consoleChunk cfg localtime))) := by
  intro batch
  induction batch with
  | nil =>
    intro fb cb
    simp [processMessageBatch, strJoin]
  | cons m rest ih =>
    intro fb cb
    simp only [processMessageBatch, List.map_cons, strJoin]
    rw [ih]
    simp only [Prod.mk.injEq]
    constructor
    · simp only [fileChunk]
      split_ifs with hf
      · simp only [formatLogMessage_spec]
        simp [String.append_assoc]
      · simp
    · simp only [consoleChunk]
      split_ifs with hc hu
      · simp only [formatLogMessage_spec]
        simp [String.append_assoc]
      · simp only [formatLogMessage_spec]
        simp [String.append_assoc]
      · simp

/-- C6: the formatted line consists, in order and separated by single
spaces, of the timestamp field if `showTimestamp`; the level field
always, whose token is drawn from TRACE, DEBUG, INFO, WARN, ERROR,
FATAL, STEP — with WARNING printed as WARN; `[T-hash]` if
`showThreadId`; `[module]` if `showModuleName` and the module is
non-empty; `[file:line]` if `showSourceLocation`, the file being the
basename unless `showFullPath`; then the record's message; and the
per-record entry written to the file buffer ends with a single
newline. -/
theorem claim_C6_format_layout (cfg : Config) (localtime : Nat → Tm)
    (msg : LogMessage) (fb cb : String) (hfile : cfg.fileOutput = true) :
    formatLogMessage cfg localtime msg fb
        = fb ++ joinSpaced (specFields cfg localtime msg) msg.message
  ∧ (processMessageBatch cfg localtime [msg] fb cb).1
        = fb ++ (joinSpaced (specFields cfg localtime msg) msg.message ++ "\n")
  ∧ levelString msg.level ∈ LEVEL_STRINGS
  ∧ (msg.level = Level.WARNING → levelString msg.level = "WARN") := by
  refine ⟨formatLogMessage_spec cfg localtime msg fb, ?_, ?_, ?_⟩
  · rw [processMessageBatch_spec]
    simp only [List.map_cons, List.map_nil, strJoin, fileChunk, hfile, if_true]
    rw [formatLogMessage_spec]
    simp [String.append_assoc]
  · cases msg.level <;> decide
  · intro h
    rw [h]
    decide

theorem claim_C6_format_layout_witness :
    cfg0.fileOutput = true ∧
      formatLogMessage cfg0 lt0 msg0 ""
        = "" ++ joinSpaced (specFields cfg0 lt0 msg0) msg0.message :=
  ⟨rfl, (claim_C6_format_layout cfg0 lt0 msg0 "" "" rfl).1⟩

/-- The embedding reproduces the worked example of §4.5 literally. -/
theorem format_layout_example :
    formatLogMessage cfg0 lt0 msg0 ""
      = "[2025-01-02 03:04:05.678] [INFO] [T-91237] [Net] [c.x:42] hello" := by
  decide

/-! ## Escape-byte accounting -/

theorem noEsc_append_iff (a b : String) :
    noEsc (a ++ b) ↔ noEsc a ∧ noEsc b := by
  simp [noEsc, String.data_append, not_or]

theorem digitChar_ne_esc (n : Nat) : digitChar n ≠ escChar := by
  unfold digitChar
  split_ifs <;> decide

theorem decDigitsAux_mem : ∀ (fuel n : Nat) (c : Char),
    c ∈ decDigitsAux fuel n → ∃ d, c = digitChar d := by
  intro fuel
  induction fuel with
  | zero => intro n c h; simp [decDigitsAux] at h
  | succ f ih =>
    intro n c h
    simp only [decDigitsAux] at h
    split at h
    · simp only [List.mem_singleton] at h
      exact ⟨n, h⟩
    · rcases List.mem_append.mp h with h' | h'
      · exact ih _ c h'
      · simp only [List.mem_singleton] at h'
        exact ⟨n % 10, h'⟩

theorem decDigits_no_esc (n : Nat) : escChar ∉ decDigits n := by
  intro h
  obtain ⟨d, hd⟩ := decDigitsAux_mem (n + 1) n escChar h
  exact digitChar_ne_esc d hd.symm

theorem natStr_no_esc (n : Nat) : noEsc (natStr n) := decDigits_no_esc n

theorem padZero_no_esc (w n : Nat) : noEsc (padZero w n) := by
  intro h
  rcases List.mem_append.mp h with h' | h'
  · exact absurd (List.eq_of_mem_replicate h') (by decide)
  · exact decDigits_no_esc n h'

theorem intStr_no_esc (i : Int) : noEsc (intStr i) := by
  unfold intStr
  split
  · rw [noEsc_append_iff]
    exact ⟨by decide, natStr_no_esc _⟩
  · exact natStr_no_esc _

theorem timestampField_no_esc (tm : Tm) (ms : Nat) :
    noEsc (timestampField tm ms) := by
  unfold timestampField
  simp only [noEsc_append_iff]
  and_intros <;> first | decide | exact padZero_no_esc _ _

theorem levelString_no_esc (lvl : Level) : noEsc (levelString lvl) := by
  cases lvl <;> decide

theorem basename_fold_sub : ∀ (l acc : List Char) (c : Char),
    c ∈ l.foldl (fun acc c => if c = '/' ∨ c = '\\' then [] else acc ++ [c]) acc →
    c ∈ acc ∨ c ∈ l := by
  intro l
  induction l with
  | nil =>
    intro acc c h
    exact Or.inl h
  | cons x xs ih =>
    intro acc c h
    simp only [List.foldl_cons] at h
    rcases ih _ c h with h' | h'
    · split at h'
      · exact absurd h' (List.not_mem_nil c)
      · rcases List.mem_append.mp h' with h'' | h''
        · exact Or.inl h''
        · simp only [List.mem_singleton] at h''
          subst h''
          exact Or.inr (List.mem_cons_self _ _)
    · exact Or.inr (List.mem_cons_of_mem x h')

theorem basename_no_esc (s : String) (h : noEsc s) : noEsc (basename s) := by
  intro hmem
  rcases basename_fold_sub s.data [] escChar hmem with h' | h'
  · exact absurd h' (List.not_mem_nil _)
  · exact h h'

theorem joinSpaced_no_esc (l : List String) (msgStr : String)
    (hl : ∀ s ∈ l, noEsc s) (hm : noEsc msgStr) :
    noEsc (joinSpaced l msgStr) := by
  induction l with
  | nil => exact hm
  | cons f fs ih =>
    simp only [joinSpaced]
    rw [noEsc_append_iff, noEsc_append_iff]
    exact ⟨⟨hl f (by simp), by decide⟩, ih (fun s hs => hl s (by simp [hs]))⟩

theorem specFields_no_esc (cfg : Config) (localtime : Nat → Tm)
    (msg : LogMessage) (hmod : noEsc msg.context.module)
    (hf : noEsc msg.context.file) :
    ∀ s ∈ specFields cfg localtime msg, noEsc s := by
  intro s hs
  simp only [specFields, List.mem_append] at hs
  rcases hs with (((h | h) | h) | h) | h
  · split at h
    · simp only [List.mem_singleton] at h
      subst h
      exact timestampField_no_esc _ _
    · exact absurd h (List.not_mem_nil s)
  · simp only [List.mem_singleton] at h
    subst h
    rw [noEsc_append_iff, noEsc_append_iff]
    exact ⟨⟨by decide, levelString_no_esc _⟩, by decide⟩
  · split at h
    · simp only [List.mem_singleton] at h
      subst h
      rw [noEsc_append_iff, noEsc_append_iff]
      exact ⟨⟨by decide, natStr_no_esc _⟩, by decide⟩
    · exact absurd h (List.not_mem_nil s)
  · split at h
    · simp only [List.mem_singleton] at h
      subst h
      rw [noEsc_append_iff, noEsc_append_iff]
      exact ⟨⟨by decide, hmod⟩, by decide⟩
    · exact absurd h (List.not_mem_nil s)
  · split at h
    · simp only [List.mem_singleton] at h
      subst h
      rw [noEsc_append_iff, noEsc_append_iff, noEsc_append_iff,
        noEsc_append_iff]
      refine ⟨⟨⟨⟨by decide, ?_⟩, by decide⟩, intStr_no_esc _⟩, by decide⟩
      split
      · exact hf
      · exact basename_no_esc _ hf
    · exact absurd h (List.not_mem_nil s)

theorem formatLogMessage_no_esc (cfg : Config) (localtime : Nat → Tm)
    (msg : LogMessage) (buffer : String) (hb : noEsc buffer)
    (hm : noEsc msg.message) (hmod : noEsc msg.context.module)
    (hf : noEsc msg.context.file) :
    noEsc (formatLogMessage cfg localtime msg buffer) := by
  rw [formatLogMessage_spec, noEsc_append_iff]
  exact ⟨hb, joinSpaced_no_esc _ _ (specFields_no_esc cfg localtime msg hmod hf) hm⟩

theorem strJoin_no_esc (l : List String) (h : ∀ s ∈ l, noEsc s) :
    noEsc (strJoin l) := by
  induction l with
  | nil => decide
  | cons s rest ih =>
    simp only [strJoin]
    rw [noEsc_append_iff]
    exact ⟨h s (by simp), ih (fun x hx => h x (by simp [hx]))⟩

/-- C7: with colors enabled, each console line is preceded by the
level-specific ANSI color escape and followed by the reset escape
(then the newline); the mapping is TRACE=cyan 36, DEBUG=magenta 35,
INFO=green 32, WARNING=yellow 33, ERROR=red 31, FATAL=bright red 1;31,
STEP=blue 34; and the file buffer receives no escape byte at all
(given the records' own strings are escape-free), so no color bytes
ever reach the file sink. -/
theorem claim_C7_console_colors (cfg : Config) (localtime : Nat → Tm)
    (batch : List LogMessage) (fb cb : String)
    (hcol : cfg.useColors = true) (hcon : cfg.consoleOutput = true)
    (hfb : noEsc fb)
    (hbatch : ∀ m ∈ batch,
      noEsc m.message ∧ noEsc m.context.module ∧ noEsc m.context.file) :
    (processMessageBatch cfg localtime batch fb cb).2
      = cb ++ strJoin (batch.map (fun m =>
          getLevelColor m.level ++ formatLogMessage cfg localtime m ""
            ++ "\x1b[0m" ++ "\n"))
  ∧ noEsc (processMessageBatch cfg localtime batch fb cb).1
  ∧ getLevelColor .TRACE = "\x1b[36m" ∧ getLevelColor .DEBUG = "\x1b[35m"
  ∧ getLevelColor .INFO = "\x1b[32m" ∧ getLevelColor .WARNING = "\x1b[33m"
  ∧ getLevelColor .ERROR = "\x1b[31m" ∧ getLevelColor .FATAL = "\x1b[1;31m"
  ∧ getLevelColor .STEP = "\x1b[34m" := by
  refine ⟨?_, ?_, rfl, rfl, rfl, rfl, rfl, rfl, rfl⟩
  · rw [processMessageBatch_spec]
    have hmap : batch.map (consoleChunk cfg localtime)
        = batch.map (fun m =>
            getLevelColor m.level ++ formatLogMessage cfg localtime m ""
              ++ "\x1b[0m" ++ "\n") := by
      apply List.map_congr_left
      intro m _
      simp only [consoleChunk, hcol, hcon, if_true]
      rfl
    rw [hmap]
  · rw [processMessageBatch_spec]
    simp only
    rw [noEsc_append_iff]
    refine ⟨hfb, strJoin_no_esc _ ?_⟩
    intro s hs
    obtain ⟨m, hmem, hm⟩ := List.mem_map.mp hs
    subst hm
    unfold fileChunk
    split
    · rw [noEsc_append_iff]
      obtain ⟨h1, h2, h3⟩ := hbatch m hmem
      exact ⟨formatLogMessage_no_esc cfg localtime m "" (by decide) h1 h2 h3,
        by decide⟩
    · decide

theorem claim_C7_console_colors_witness :
    (cfg0.useColors = true ∧ cfg0.consoleOutput = true) ∧
      (processMessageBatch cfg0 lt0 [msg0] "" "").2
        = "" ++ strJoin ([msg0].map (fun m =>
            getLevelColor m.level ++ formatLogMessage cfg0 lt0 m ""
              ++ "\x1b[0m" ++ "\n")) := by
  have hbatch : ∀ m ∈ [msg0],
      noEsc m.message ∧ noEsc m.context.module ∧ noEsc m.context.file := by
    intro m hm
    simp only [List.mem_singleton] at hm
    subst hm
    exact ⟨by decide, by decide, by decide⟩
  exact ⟨⟨rfl, rfl⟩,
    (claim_C7_console_colors cfg0 lt0 [msg0] "" "" rfl rfl (by decide) hbatch).1⟩

/-! ## Claim theorems: reconfiguration -/

/-- C9: when `configure` throws because the log file cannot be opened
(with file output requested), the logger's state has already changed at
the throw point — the new configuration is installed in `config` and the
previously open log file has been closed; `configure` is not atomic on
error. -/
theorem claim_C9_configure_not_atomic (st : LoggerState) (cfg : Config)
    (env : OpenEnv) (hout : cfg.fileOutput = true)
    (hfail : env.canOpen = false) :
    (configure st cfg env).2
        = some ("Failed to open log file: " ++ cfg.logDir ++ "/"
            ++ cfg.filePref ++ ".log")
  ∧ (configure st cfg env).1.config = cfg
  ∧ (configure st cfg env).1.fileOpen = false := by
  simp [configure, hout, hfail]

theorem claim_C9_configure_not_atomic_witness :
    (cfg0.fileOutput = true ∧ OpenEnv.canOpen ⟨false, 0⟩ = false ∧
        st0.fileOpen = true) ∧
      (configure st0 cfg0 ⟨false, 0⟩).1.config = cfg0 ∧
      (configure st0 cfg0 ⟨false, 0⟩).1.fileOpen = false := by
  refine ⟨⟨rfl, rfl, rfl⟩, ?_⟩
  exact (claim_C9_configure_not_atomic st0 cfg0 ⟨false, 0⟩ rfl rfl).2

/-! ## File sink lemmas -/

theorem insertByMtime_perm (e : DirEntry) (l : List DirEntry) :
    List.Perm (insertByMtime e l) (e :: l) := by
  induction l with
  | nil => exact List.Perm.refl _
  | cons f fs ih =>
    simp only [insertByMtime]
    split
    · exact List.Perm.refl _
    · exact (List.Perm.cons f ih).trans (List.Perm.swap e f fs)

theorem sortByMtime_perm (l : List DirEntry) : List.Perm (sortByMtime l) l := by
  induction l with
  | nil => exact List.Perm.refl _
  | cons e es ih =>
    simp only [sortByMtime]
    exact (insertByMtime_perm e (sortByMtime es)).trans (List.Perm.cons e ih)

/-- Keeping exactly the elements outside the dropped tail of a
duplicate-free list keeps `min n` of them. -/
theorem filter_not_mem_drop_length {α : Type} [DecidableEq α] (S : List α)
    (n : Nat) (h : S.Nodup) :
    (S.filter (fun a => decide (a ∉ S.drop n))).length = min n S.length := by
  have hsplit := List.take_append_drop n S
  have hdisj : List.Disjoint (S.take n) (S.drop n) :=
    List.disjoint_of_nodup_append (hsplit.symm ▸ h)
  have hstep : S.filter (fun a => decide (a ∉ S.drop n))
      = (S.take n ++ S.drop n).filter (fun a => decide (a ∉ S.drop n)) := by
    rw [hsplit]
  rw [hstep, List.filter_append]
  have htake : (S.take n).filter
      (fun a => decide (a ∉ S.drop n)) = S.take n := by
    rw [List.filter_eq_self]
    intro a ha
    simpa using hdisj ha
  have hdrop : (S.drop n).filter
      (fun a => decide (a ∉ S.drop n)) = [] := by
    rw [List.filter_eq_nil_iff]
    intro a ha
    simpa using ha
  rw [htake, hdrop, List.append_nil, List.length_take]

/-- Retention leaves `min maxFiles n` of the `n` matching files (and
only deletes matching files), provided the directory has no duplicate
entries. -/
theorem cleanOldLogs_count (cfg : Config) (dir : List DirEntry)
    (hnd : dir.Nodup) :
    matchCount cfg (cleanOldLogs cfg dir)
      = min cfg.maxFiles (matchCount cfg dir) := by
  unfold matchCount cleanOldLogs
  rw [List.filter_filter]
  have hcomm : dir.filter (fun a =>
        isLogFile cfg a.name &&
          decide (a ∉ (sortByMtime (dir.filter fun x => isLogFile cfg x.name)).drop
            cfg.maxFiles))
      = (dir.filter (fun x => isLogFile cfg x.name)).filter (fun a =>
          decide (a ∉ (sortByMtime (dir.filter fun x => isLogFile cfg x.name)).drop
            cfg.maxFiles)) := by
    rw [List.filter_filter]
    apply List.filter_congr
    intro a _
    exact Bool.and_comm _ _
  rw [hcomm]
  have hperm : List.Perm (sortByMtime (dir.filter fun x => isLogFile cfg x.name))
      (dir.filter fun x => isLogFile cfg x.name) :=
    sortByMtime_perm _
  have hSnd : (sortByMtime (dir.filter fun x => isLogFile cfg x.name)).Nodup :=
    hperm.nodup_iff.mpr (hnd.filter _)
  have hlenperm := (hperm.filter (fun a =>
    decide (a ∉ (sortByMtime (dir.filter fun x => isLogFile cfg x.name)).drop
      cfg.maxFiles))).length_eq
  rw [← hlenperm, filter_not_mem_drop_length _ _ hSnd, hperm.length_eq]

/-- C5 counterexample: a triggered rotation with `maxFiles = 5` and a
single matching file present leaves 2 matching files (the rotated file
and the fresh active file), not exactly 5: the cleanup only ever
deletes, so when fewer than `maxFiles` matching files exist, fewer than
`maxFiles` remain. -/
theorem claim_C5_cex :
    cexCfg.maxFiles = 5 ∧
    cexCfg.fileOutput = true ∧
    cexCfg.maxFileSize ≤ cexSink.currentFileSize ∧
    matchCount cexCfg
      (rotateLogFileIfNeeded cexCfg cexSink "20250102_030405" 1).dir = 2 := by
  refine ⟨rfl, rfl, by decide, ?_⟩
  decide

/-- C5 amended: after a write, the sink rotates exactly when
`currentFileSize ≥ maxFileSize` (given file output): below the threshold
nothing changes; at or above it, the active file is renamed to the
timestamped name, a fresh active file is opened (`fileOpen`,
`currentFileSize = 0`), and the cleanup leaves `min maxFiles n` of the
`n` then-matching files — that is, at most `maxFiles`, and exactly
`maxFiles` only when at least `maxFiles` matching files were present. -/
theorem claim_C5_rotation (cfg : Config) (st : FileSink) (tsName : String)
    (now : Nat) (hout : cfg.fileOutput = true)
    (hnd : (renamedDir cfg st.dir tsName now).Nodup) :
    (st.currentFileSize < cfg.maxFileSize →
        rotateLogFileIfNeeded cfg st tsName now = st)
  ∧ (cfg.maxFileSize ≤ st.currentFileSize →
        (rotateLogFileIfNeeded cfg st tsName now).currentFileSize = 0
      ∧ (rotateLogFileIfNeeded cfg st tsName now).fileOpen = true
      ∧ (rotateLogFileIfNeeded cfg st tsName now).dir
          = cleanOldLogs cfg (renamedDir cfg st.dir tsName now)
      ∧ matchCount cfg (rotateLogFileIfNeeded cfg st tsName now).dir
          = min cfg.maxFiles
              (matchCount cfg (renamedDir cfg st.dir tsName now))) := by
  constructor
  · intro hlt
    unfold rotateLogFileIfNeeded
    rw [if_pos (Or.inr hlt)]
  · intro hge
    have hcond : ¬ (¬ cfg.fileOutput = true ∨
        st.currentFileSize < cfg.maxFileSize) := by
      push_neg
      exact ⟨hout, by omega⟩
    unfold rotateLogFileIfNeeded
    rw [if_neg hcond]
    exact ⟨rfl, rfl, rfl, cleanOldLogs_count cfg _ hnd⟩

theorem claim_C5_rotation_witness :
    (cexCfg.fileOutput = true ∧
        cexCfg.maxFileSize ≤ cexSink.currentFileSize) ∧
      matchCount cexCfg
          (rotateLogFileIfNeeded cexCfg cexSink "20250102_030405" 1).dir
        = min cexCfg.maxFiles
            (matchCount cexCfg (renamedDir cexCfg cexSink.dir "20250102_030405" 1)) := by
  refine ⟨⟨rfl, by decide⟩, ?_⟩
  exact ((claim_C5_rotation cexCfg cexSink "20250102_030405" 1 rfl
    (by decide)).2 (by decide)).2.2.2

end BlitzLogger
